import Mathlib

/-!
Verification development for a small JavaScript-like interpreter
(execution engine, object model, memory/GC subsystem and scope chain).

The execution engine is embedded from src/src/execution_engine.rs.
The collaborating modules (javascript_object, memory, execution_scope,
error, parser's expression tree) are not present under src/, so their
definitions are modelled from the specification, as marked on each
definition.
-/

namespace JsEngine

/-- Modelled from the spec: the host numeric type of javascript_object.rs
(an IEEE-style float, not under src/) is idealised as either not-a-number,
a signed infinity, or a finite rational; the arithmetic below follows the
IEEE rules for these special values (in particular division by zero yields
an infinity or not-a-number, never an error). -/
inductive JNum where
  | nan : JNum
  | inf (negative : Bool) : JNum
  | fin (val : ℚ) : JNum
deriving DecidableEq

/-- Negation on the idealised float. -/
def JNum.neg : JNum → JNum
  | .nan => .nan
  | .inf b => .inf !b
  | .fin q => .fin (-q)

/-- Addition on the idealised float. -/
def JNum.add : JNum → JNum → JNum
  | .nan, _ => .nan
  | _, .nan => .nan
  | .inf a, .inf b => if a = b then .inf a else .nan
  | .inf a, .fin _ => .inf a
  | .fin _, .inf b => .inf b
  | .fin a, .fin b => .fin (a + b)

/-- Subtraction on the idealised float. -/
def JNum.sub (a b : JNum) : JNum := a.add b.neg

/-- Multiplication on the idealised float. -/
def JNum.mul : JNum → JNum → JNum
  | .nan, _ => .nan
  | _, .nan => .nan
  | .inf a, .inf b => .inf (a != b)
  | .inf a, .fin q => if q = 0 then .nan else .inf (a != decide (q < 0))
  | .fin q, .inf b => if q = 0 then .nan else .inf (b != decide (q < 0))
  | .fin a, .fin b => .fin (a * b)

/-- Division on the idealised float: division by a finite zero yields an
infinity (or not-a-number for zero over zero), never an error. -/
def JNum.div : JNum → JNum → JNum
  | .nan, _ => .nan
  | _, .nan => .nan
  | .inf _, .inf _ => .nan
  | .inf a, .fin q => .inf (a != decide (q < 0))
  | .fin _, .inf _ => .fin 0
  | .fin a, .fin b =>
    if b = 0 then (if a = 0 then .nan else .inf (decide (a < 0)))
    else .fin (a / b)

/-- Loose numeric equality: not-a-number is equal to nothing, infinities
compare by sign, finite values compare as rationals. -/
def JNum.looseEq : JNum → JNum → Bool
  | .nan, _ => false
  | _, .nan => false
  | .inf a, .inf b => a == b
  | .fin a, .fin b => decide (a = b)
  | _, _ => false

/-- Modelled from the spec: the closed tagged variant of runtime values
(javascript_object.rs is not under src/). -/
inductive JavascriptObjectKind where
  | undefined : JavascriptObjectKind
  | boolean (b : Bool) : JavascriptObjectKind
  | number (n : JNum) : JavascriptObjectKind
  | string (s : String) : JavascriptObjectKind
deriving DecidableEq

/-- Modelled from the spec: an object handle carries a unique integer id
assigned at allocation time together with its value kind.  The engine
never mutates a value in place, so a handle is modelled as an immutable
pair; sharing is tracked through the id. -/
structure JavascriptObject where
  memory_id : Nat
  kind : JavascriptObjectKind
deriving DecidableEq

/-- Decimal value of a digit list. -/
def digitsToNat (cs : List Char) : Nat :=
  cs.foldl (fun acc c => acc * 10 + (c.toNat - 48)) 0

/-- Modelled from the spec: JavaScript numeric-literal parsing used by
string-to-number coercion.  Leading and trailing whitespace is trimmed,
the empty string parses as zero, an optional sign is followed by decimal
digits with an optional fractional part; anything else is not-a-number. -/
def parse_js_number (s : String) : JNum :=
  let t := s.trim
  if t = "" then .fin 0 else
  let (sign, body) :=
    match t.toList with
    | '-' :: rest => (true, rest)
    | '+' :: rest => (false, rest)
    | cs => (false, cs)
  let intPart := body.takeWhile (fun c => c != '.')
  let rest := body.dropWhile (fun c => c != '.')
  let frac := match rest with | '.' :: f => f | _ => []
  let wellFormed :=
    match rest with
    | [] => intPart.all Char.isDigit && !intPart.isEmpty
    | '.' :: f =>
      intPart.all Char.isDigit && f.all Char.isDigit &&
        (!intPart.isEmpty || !f.isEmpty)
    | _ => false
  if wellFormed then
    let magnitude : ℚ :=
      (digitsToNat intPart : ℚ) + (digitsToNat frac : ℚ) / ((10 : ℚ) ^ frac.length)
    .fin (if sign then -magnitude else magnitude)
  else .nan

/-- Modelled from the spec: best-effort numeric coercion of a value kind —
numbers pass through, strings parse per JavaScript numeric-literal rules,
booleans map to one and zero, undefined is not-a-number. -/
def JavascriptObjectKind.cast_to_number : JavascriptObjectKind → JNum
  | .undefined => .nan
  | .boolean b => .fin (if b then 1 else 0)
  | .number n => n
  | .string s => parse_js_number s

/-- Numeric coercion of an object handle (reads only its value kind). -/
def JavascriptObject.cast_to_number (o : JavascriptObject) : JNum :=
  o.kind.cast_to_number

/-- Modelled from the spec: loose equality — same-kind values compare
their data; string and number compare via numeric coercion of the string;
a boolean compares via its numeric coercion; undefined is equal only to
undefined. -/
def JavascriptObject.is_equal_to_non_strict (a b : JavascriptObject) : Bool :=
  match a.kind, b.kind with
  | .undefined, .undefined => true
  | .undefined, _ => false
  | _, .undefined => false
  | .boolean x, .boolean y => x == y
  | .number x, .number y => x.looseEq y
  | .string x, .string y => x == y
  | .number x, .string s => x.looseEq (parse_js_number s)
  | .string s, .number y => (parse_js_number s).looseEq y
  | .boolean x, k => (JNum.fin (if x then 1 else 0)).looseEq k.cast_to_number
  | k, .boolean y => k.cast_to_number.looseEq (JNum.fin (if y then 1 else 0))

/-- Modelled from the spec: error.rs is not under src/; every error the
engine produces is an execution-engine error carrying a message, and the
distinct error conditions are distinguished by their messages. -/
structure EngineError where
  message : String
deriving DecidableEq

/-- Constructor mirroring the execution-engine error used throughout
execution_engine.rs. -/
def EngineError.execution_engine_error (msg : String) : EngineError :=
  ⟨msg⟩

/-- Modelled from the spec: Memory owns a mapping from id to object handle
plus a monotonically increasing id counter (memory.rs is not under src/).
The table is an association list in allocation order. -/
structure Memory where
  objects : List (Nat × JavascriptObject)
  next_id : Nat
deriving DecidableEq

/-- A fresh empty heap. -/
def Memory.new : Memory := ⟨[], 0⟩

/-- Mint a fresh id, construct the value, insert it into the table and
return the handle (allocation never fails). -/
def Memory.allocate (m : Memory) (kind : JavascriptObjectKind) :
    JavascriptObject × Memory :=
  let obj : JavascriptObject := ⟨m.next_id, kind⟩
  (obj, ⟨m.objects ++ [(m.next_id, obj)], m.next_id + 1⟩)

/-- Allocate the undefined value. -/
def Memory.allocate_undefined (m : Memory) : JavascriptObject × Memory :=
  m.allocate .undefined

/-- Allocate a boolean value. -/
def Memory.allocate_boolean (m : Memory) (b : Bool) : JavascriptObject × Memory :=
  m.allocate (.boolean b)

/-- Allocate a number value. -/
def Memory.allocate_number (m : Memory) (n : JNum) : JavascriptObject × Memory :=
  m.allocate (.number n)

/-- Allocate a string value. -/
def Memory.allocate_string (m : Memory) (s : String) : JavascriptObject × Memory :=
  m.allocate (.string s)

/-- Modelled from the spec: remove every table entry whose id is not in
the supplied live set; handles copied out elsewhere stay valid. -/
def Memory.deallocate_except_ids (m : Memory) (ids : List Nat) : Memory :=
  { m with objects := m.objects.filter (fun p => ids.contains p.1) }

/-- Whether an id currently has a live entry in the heap table. -/
def Memory.hasId (m : Memory) (i : Nat) : Bool :=
  m.objects.any (fun p => p.1 == i)

/-- Modelled from the spec: a scope owns a mapping from name to object
handle plus an optional parent scope for lexical chaining
(execution_scope.rs is not under src/).  Bindings are kept in insertion
order. -/
inductive ExecutionScope where
  | mk (vars : List (String × JavascriptObject))
       (parent : Option ExecutionScope) : ExecutionScope

/-- The name-to-handle bindings owned directly by this scope (the
variables map of the source). -/
def ExecutionScope.vars : ExecutionScope → List (String × JavascriptObject)
  | .mk vars _ => vars

/-- The optional parent scope. -/
def ExecutionScope.parent : ExecutionScope → Option ExecutionScope
  | .mk _ par => par

/-- Modelled from the spec: the duplicate-binding error produced when a
name is defined twice in the same scope. -/
def duplicate_binding_error (name : String) : EngineError :=
  EngineError.execution_engine_error ("Variable " ++ name ++ " is already defined")

/-- Modelled from the spec: define inserts into this scope only and fails
with a duplicate-binding condition if the name already exists in this
scope. -/
def ExecutionScope.define (sc : ExecutionScope) (name : String)
    (obj : JavascriptObject) : Except EngineError ExecutionScope :=
  match sc with
  | .mk vars par =>
    if vars.any (fun p => p.1 == name) then
      .error (duplicate_binding_error name)
    else
      .ok (.mk (vars ++ [(name, obj)]) par)

/-- Modelled from the spec: get resolves a name by searching this scope
then walking to parent scopes until found or exhausted. -/
def ExecutionScope.get : ExecutionScope → String → Option JavascriptObject
  | .mk vars none, name => (vars.find? (fun p => p.1 == name)).map Prod.snd
  | .mk vars (some par), name =>
    match vars.find? (fun p => p.1 == name) with
    | some p => some p.2
    | none => par.get name

/-- Modelled from the spec: assign searches this scope then the parent
chain for an existing binding and replaces its target handle in place;
when no binding exists anywhere in the chain this is a caller error (the
evaluator pre-checks existence) and the chain is left unchanged. -/
def ExecutionScope.assign : ExecutionScope → String → JavascriptObject → ExecutionScope
  | .mk vars par, name, obj =>
    if vars.any (fun p => p.1 == name) then
      .mk (vars.map (fun p => if p.1 == name then (p.1, obj) else p)) par
    else
      match par with
      | some p => .mk vars (some (p.assign name obj))
      | none => .mk vars none

/-- Modelled from the spec: the ids of all handles bound directly in this
scope — its root-set contribution for a sweep. -/
def ExecutionScope.get_variable_ids : ExecutionScope → List Nat
  | .mk vars _ => vars.map (fun p => p.2.memory_id)

/-- Modelled from the spec: the operator token kinds carried by a binary
operator, the closed set consumed by the engine (tokenizer.rs is not
under src/). -/
inductive TokenKind where
  | plus : TokenKind
  | minus : TokenKind
  | multiply : TokenKind
  | divide : TokenKind
  | equalsEquals : TokenKind
  | equals : TokenKind
deriving DecidableEq

/-- Modelled from the spec: an operator token as consumed by the engine;
it exposes its kind. -/
structure Operator where
  kind : TokenKind
deriving DecidableEq

/-- True only for the assignment form of the operator. -/
def Operator.is_equals (op : Operator) : Bool :=
  op.kind == .equals

/-- Modelled from the spec: the expression tree produced by the external
parser (parser.rs is not under src/); exactly the node kinds consumed by
the engine. -/
inductive Expression where
  | program (expressions : List Expression) : Expression
  | letVariableDeclaration (name : String) (initializer : Expression) : Expression
  | numberLiteral (value : JNum) : Expression
  | parenthesized (expression : Expression) : Expression
  | identifier (name : String) : Expression
  | binaryOp (left : Expression) (op : Operator) (right : Expression) : Expression
  | stringLiteral (value : String) : Expression

/-- Modelled from the spec: extract the bound name from an identifier
node used as an assignment target (unspecified on other nodes, which the
engine never passes). -/
def Expression.unwrap_name : Expression → String
  | .identifier name => name
  | _ => ""

/-- Modelled from the spec: parser.rs is not under src/;
reorder_expression is specified only as a pure, deterministic, idempotent
precedence-restoring transformation which is a no-op on an
already-correctly-grouped tree.  The claims settled here do not depend on
its grouping behaviour, so it is modelled as the identity. -/
@[reducible] def reorder_expression (e : Expression) : Expression := e

/-- Modelled from the spec: a plain textual rendering of an expression
node, standing in for the host language's debug formatting used inside
error messages. -/
def Expression.render : Expression → String
  | .program _ => "Program"
  | .letVariableDeclaration name _ => "LetVariableDeclaration " ++ name
  | .numberLiteral _ => "NumberLiteral"
  | .parenthesized _ => "Parenthesized"
  | .identifier name => "Identifier " ++ name
  | .binaryOp _ _ _ => "BinaryOp"
  | .stringLiteral _ => "StringLiteral"

/-- The identifier-not-found error of execution_engine.rs. -/
def no_variable_error (name : String) : EngineError :=
  EngineError.execution_engine_error ("No variable " ++ name ++ " found in the scope")

/-- The invalid-assignment-target error of execution_engine.rs (the
message keeps the source's spelling). -/
def invalid_target_error (left : Expression) : EngineError :=
  EngineError.execution_engine_error
    ("Expected identifier in assigment, got: " ++ left.render)

/-- The unsupported-operator error of execution_engine.rs. -/
def unsupported_operator_error (op : Operator) : EngineError :=
  EngineError.execution_engine_error
    ("Failed to execute binary expression with operator: " ++
      (match op.kind with
       | .plus => "Plus"
       | .minus => "Minus"
       | .multiply => "Multiply"
       | .divide => "Divide"
       | .equalsEquals => "EqualsEquals"
       | .equals => "Equals"))

/-- Ghost record of one garbage-collection sweep (one
deallocate_except_ids call): the scope stack at that moment, the scope
whose bound ids keyed the sweep, and the heap table immediately before
and after.  The engine's behaviour does not depend on this record; it
only makes the states immediately after each sweep available to the
theorems below. -/
structure GcRecord where
  scopes_at_sweep : List ExecutionScope
  swept_scope : ExecutionScope
  memory_before : Memory
  memory_after : Memory

/-- The execution engine state of execution_engine.rs: the stack of
active scopes (last element is the innermost scope), the shared heap and
the evaluation-step counter, plus the ghost trace of sweeps. -/
structure ExecutionEngine where
  scopes : List ExecutionScope
  memory : Memory
  execution_tick : Nat
  gc_trace : List GcRecord

/-- Helper mirroring the unwrap on the always-successful define calls of
initialize_global_scope (the error branch is unreachable there). -/
def defineOrKeep (sc : ExecutionScope) (name : String)
    (obj : JavascriptObject) : ExecutionScope :=
  match sc.define name obj with
  | .ok sc' => sc'
  | .error _ => sc

/-- ExecutionEngine::new followed by initialize_global_scope: allocate
and bind the three interned singletons in a fresh global scope. -/
def ExecutionEngine.new : ExecutionEngine :=
  let m0 := Memory.new
  let g0 : ExecutionScope := .mk [] none
  let (u, m1) := m0.allocate_undefined
  let g1 := defineOrKeep g0 "undefined" u
  let (t, m2) := m1.allocate_boolean true
  let g2 := defineOrKeep g1 "true" t
  let (f, m3) := m2.allocate_boolean false
  let g3 := defineOrKeep g2 "false" f
  { scopes := [g3], memory := m3, execution_tick := 0, gc_trace := [] }

/-- The global scope is the bottom of the scope stack. -/
def ExecutionEngine.get_global_scope (s : ExecutionEngine) : ExecutionScope :=
  s.scopes.headD (.mk [] none)

/-- Look up the interned undefined singleton by name in the global scope
(the none branch is unreachable: the binding is installed at
construction and bindings are never removed). -/
def ExecutionEngine.get_undefined (s : ExecutionEngine) : JavascriptObject :=
  (s.get_global_scope.get "undefined").getD ⟨0, .undefined⟩

/-- Look up an interned boolean singleton by name in the global scope. -/
def ExecutionEngine.get_boolean (s : ExecutionEngine) (value : Bool) :
    JavascriptObject :=
  (s.get_global_scope.get (if value then "true" else "false")).getD ⟨0, .undefined⟩

/-- The current (innermost) scope is the top of the scope stack. -/
def ExecutionEngine.get_current_scope (s : ExecutionEngine) : ExecutionScope :=
  s.scopes.getLastD (.mk [] none)

/-- Write back a mutation of the current scope (models the in-place
mutation through get_current_scope in the source). -/
def ExecutionEngine.set_current_scope (s : ExecutionEngine)
    (sc : ExecutionScope) : ExecutionEngine :=
  { s with scopes := s.scopes.dropLast ++ [sc] }

/-- One step of the collect_garbage loop: sweep the heap keyed by one
scope's bound ids and record the sweep in the ghost trace. -/
def gc_step (stack : List ExecutionScope) (acc : Memory × List GcRecord)
    (scope : ExecutionScope) : Memory × List GcRecord :=
  let m' := acc.1.deallocate_except_ids scope.get_variable_ids
  (m', acc.2 ++ [⟨stack, scope, acc.1, m'⟩])

/-- ExecutionEngine::collect_garbage: for every scope on the stack, sweep
the heap keeping only that scope's bound ids (a per-scope cumulative
sweep, not a single union).  Each individual sweep is also recorded in
the ghost trace. -/
def ExecutionEngine.collect_garbage (s : ExecutionEngine) : ExecutionEngine :=
  let r := s.scopes.foldl (gc_step s.scopes) (s.memory, s.gc_trace)
  { s with memory := r.1, gc_trace := r.2 }

/-- The result of one evaluation: the value or error, together with the
engine state it left behind. -/
abbrev ExecResult := Except EngineError JavascriptObject × ExecutionEngine

/-- The epilogue of execute_expression (source lines 202 to 208): bump
the tick counter and run garbage collection when it reaches a multiple
of ten.  The match arms that return early in the source bypass this. -/
def ExecutionEngine.finish_tick (s : ExecutionEngine)
    (result : Except EngineError JavascriptObject) : ExecResult :=
  let s1 := { s with execution_tick := s.execution_tick + 1 }
  let s2 := if s1.execution_tick % 10 == 0 then s1.collect_garbage else s1
  (result, s2)

mutual

/-- ExecutionEngine::execute_expression, translated arm by arm.  Arms
that reach the end of the source match fall through to finish_tick; the
arms that use an early return in the source (the whole Program arm, the
whole assignment arm, and a failing operand of a non-assignment binary
operator) bypass it, exactly as the source does. -/
def ExecutionEngine.execute_expression (s : ExecutionEngine) :
    Expression → ExecResult
  | .program expressions => s.execute_sequence expressions
  | .letVariableDeclaration name initializer =>
    match s.execute_expression initializer with
    | (.ok object, s1) =>
      match s1.get_current_scope.define name object with
      | .ok sc => (s1.set_current_scope sc).finish_tick (.ok object)
      | .error err => s1.finish_tick (.error err)
    | (.error err, s1) => s1.finish_tick (.error err)
  | .numberLiteral value =>
    match s.memory.allocate_number value with
    | (obj, m) => ({ s with memory := m }).finish_tick (.ok obj)
  | .parenthesized expression =>
    match s.execute_expression expression with
    | (r, s1) => s1.finish_tick r
  | .identifier name =>
    match s.get_current_scope.get name with
    | some value => s.finish_tick (.ok value)
    | none => s.finish_tick (.error (no_variable_error name))
  | .binaryOp left op right =>
    if op.is_equals then
      match left with
      | .identifier name =>
        match s.get_current_scope.get name with
        | some _ =>
          match s.execute_expression right with
          | (.ok value, s1) =>
            (.ok value,
              s1.set_current_scope
                (s1.get_current_scope.assign (Expression.identifier name).unwrap_name value))
          | (.error err, s1) => (.error err, s1)
        | none => (.error (no_variable_error name), s)
      | _ => (.error (invalid_target_error left), s)
    else
      match s.execute_expression (reorder_expression left) with
      | (.error err, s1) => (.error err, s1)
      | (.ok left_result, s1) =>
        match s1.execute_expression (reorder_expression right) with
        | (.error err, s2) => (.error err, s2)
        | (.ok right_result, s2) =>
          match op.kind with
          | .equalsEquals =>
            s2.finish_tick
              (.ok (s2.get_boolean (left_result.is_equal_to_non_strict right_result)))
          | .plus =>
            match s2.memory.allocate_number
                (left_result.cast_to_number.add right_result.cast_to_number) with
            | (obj, m) => ({ s2 with memory := m }).finish_tick (.ok obj)
          | .minus =>
            match s2.memory.allocate_number
                (left_result.cast_to_number.sub right_result.cast_to_number) with
            | (obj, m) => ({ s2 with memory := m }).finish_tick (.ok obj)
          | .multiply =>
            match s2.memory.allocate_number
                (left_result.cast_to_number.mul right_result.cast_to_number) with
            | (obj, m) => ({ s2 with memory := m }).finish_tick (.ok obj)
          | .divide =>
            match s2.memory.allocate_number
                (left_result.cast_to_number.div right_result.cast_to_number) with
            | (obj, m) => ({ s2 with memory := m }).finish_tick (.ok obj)
          | .equals => s2.finish_tick (.error (unsupported_operator_error op))
  | .stringLiteral value =>
    match s.memory.allocate_string value with
    | (obj, m) => ({ s with memory := m }).finish_tick (.ok obj)

/-- The loop of the Program arm (source lines 103 to 115): evaluate the
children in order, abort on the first error, return the last child's
value directly, and return the undefined singleton for an empty list;
every outcome is an early return that bypasses finish_tick. -/
def ExecutionEngine.execute_sequence (s : ExecutionEngine) :
    List Expression → ExecResult
  | [] => (.ok s.get_undefined, s)
  | [e] => s.execute_expression e
  | e :: rest =>
    match s.execute_expression e with
    | (.error err, s1) => (.error err, s1)
    | (.ok _, s1) => s1.execute_sequence rest

end

/-- ExecutionEngine::execute_source, after the external tokenizer and
parser have produced the expression tree: construct a fresh engine and
evaluate the tree (the Rust function returns only the result; the final
engine state is kept here so that the theorems can speak about it). -/
def execute_source (program : Expression) : ExecResult :=
  ExecutionEngine.new.execute_expression program

/-! ### Syntactic predicates and sample programs used by the theorems -/

mutual

/-- True when no assignment BinaryOp anywhere in the expression targets
the given name. -/
def noAssignTo (name : String) : Expression → Bool
  | .program es => noAssignToList name es
  | .letVariableDeclaration _ init => noAssignTo name init
  | .numberLiteral _ => true
  | .parenthesized inner => noAssignTo name inner
  | .identifier _ => true
  | .binaryOp left op right =>
    (if op.is_equals then
      match left with
      | .identifier m => m != name
      | _ => true
     else true) && (noAssignTo name left && noAssignTo name right)
  | .stringLiteral _ => true

/-- List version of noAssignTo. -/
def noAssignToList (name : String) : List Expression → Bool
  | [] => true
  | e :: rest => noAssignTo name e && noAssignToList name rest

end

/-- A recorded sweep is good when every handle bound in the scope that
keyed it and live immediately before it is still live immediately after
it. -/
def GcRecord.good (rec : GcRecord) : Prop :=
  ∀ pr ∈ rec.swept_scope.vars,
    rec.memory_before.hasId pr.2.memory_id = true →
    rec.memory_after.hasId pr.2.memory_id = true

/-- Sample program: nine number literals, then a let declaration whose
initializer completes on the tenth tick (so a sweep runs while its value
is in flight, bound in no scope), then nine more literals so that a
second sweep runs after the value has been bound. -/
def inflight_sweep_program : Expression :=
  .program
    [.numberLiteral (.fin 1), .numberLiteral (.fin 2), .numberLiteral (.fin 3),
     .numberLiteral (.fin 4), .numberLiteral (.fin 5), .numberLiteral (.fin 6),
     .numberLiteral (.fin 7), .numberLiteral (.fin 8), .numberLiteral (.fin 9),
     .letVariableDeclaration "x" (.numberLiteral (.fin 42)),
     .numberLiteral (.fin 11), .numberLiteral (.fin 12), .numberLiteral (.fin 13),
     .numberLiteral (.fin 14), .numberLiteral (.fin 15), .numberLiteral (.fin 16),
     .numberLiteral (.fin 17), .numberLiteral (.fin 18), .numberLiteral (.fin 19)]

/-- Sample program: ten number literals, so that exactly one sweep runs
at the tenth tick. -/
def ten_literals_program : Expression :=
  .program
    [.numberLiteral (.fin 1), .numberLiteral (.fin 2), .numberLiteral (.fin 3),
     .numberLiteral (.fin 4), .numberLiteral (.fin 5), .numberLiteral (.fin 6),
     .numberLiteral (.fin 7), .numberLiteral (.fin 8), .numberLiteral (.fin 9),
     .numberLiteral (.fin 10)]

/-- Sample program: assign the number zero to the name of the interned
boolean singleton, then evaluate a loose equality whose result is looked
up under that name. -/
def rebind_true_program : Expression :=
  .program
    [.binaryOp (.identifier "true") ⟨.equals⟩ (.numberLiteral (.fin 0)),
     .binaryOp (.numberLiteral (.fin 1)) ⟨.equalsEquals⟩ (.numberLiteral (.fin 1))]

/-- The numeric operation the engine's arithmetic dispatch applies for
each arithmetic operator kind (the final catch-all is never used by the
dispatch). -/
def arith_result : TokenKind → JNum → JNum → JNum
  | .plus, a, b => a.add b
  | .minus, a, b => a.sub b
  | .multiply, a, b => a.mul b
  | .divide, a, b => a.div b
  | _, _, _ => .nan

/-! ### Basic state lemmas -/

theorem collect_garbage_scopes (s : ExecutionEngine) :
    s.collect_garbage.scopes = s.scopes := rfl

theorem collect_garbage_tick (s : ExecutionEngine) :
    s.collect_garbage.execution_tick = s.execution_tick := rfl

theorem finish_tick_fst (s : ExecutionEngine)
    (r : Except EngineError JavascriptObject) : (s.finish_tick r).1 = r := rfl

theorem finish_tick_scopes (s : ExecutionEngine)
    (r : Except EngineError JavascriptObject) :
    (s.finish_tick r).2.scopes = s.scopes := by
  simp only [ExecutionEngine.finish_tick]
  split <;> rfl

theorem finish_tick_tick (s : ExecutionEngine)
    (r : Except EngineError JavascriptObject) :
    (s.finish_tick r).2.execution_tick = s.execution_tick + 1 := by
  simp only [ExecutionEngine.finish_tick]
  split <;> rfl

theorem set_current_scope_single (s : ExecutionEngine) (g sc : ExecutionScope)
    (h : s.scopes = [g]) : (s.set_current_scope sc).scopes = [sc] := by
  simp [ExecutionEngine.set_current_scope, h]

theorem get_current_scope_single (s : ExecutionEngine) (g : ExecutionScope)
    (h : s.scopes = [g]) : s.get_current_scope = g := by
  simp [ExecutionEngine.get_current_scope, h]

theorem get_global_scope_single (s : ExecutionEngine) (g : ExecutionScope)
    (h : s.scopes = [g]) : s.get_global_scope = g := by
  simp [ExecutionEngine.get_global_scope, h]

/-! ### Heap sweep lemmas -/

theorem contains_of_mem (l : List Nat) (a : Nat) (h : a ∈ l) :
    l.contains a = true := by
  simpa using h

theorem hasId_deallocate_of (m : Memory) (ids : List Nat) (i : Nat)
    (h1 : m.hasId i = true) (h2 : i ∈ ids) :
    (m.deallocate_except_ids ids).hasId i = true := by
  obtain ⟨objs, nid⟩ := m
  simp only [Memory.hasId, Memory.deallocate_except_ids] at h1 ⊢
  rw [List.any_eq_true] at h1 ⊢
  obtain ⟨p, hp, hpi⟩ := h1
  refine ⟨p, ?_, hpi⟩
  rw [List.mem_filter]
  refine ⟨hp, ?_⟩
  have hpe : p.1 = i := by simpa using hpi
  rw [hpe]
  exact contains_of_mem ids i h2

/-! ### Association list lemmas for scope bindings -/

theorem find?_append_left {α : Type} (l1 l2 : List α) (p : α → Bool) (x : α)
    (h : l1.find? p = some x) : (l1 ++ l2).find? p = some x := by
  induction l1 with
  | nil => simp [List.find?] at h
  | cons hd tl ih =>
    rw [List.cons_append]
    by_cases hp : p hd = true
    · rw [List.find?_cons_of_pos _ hp] at h ⊢
      exact h
    · simp only [Bool.not_eq_true] at hp
      rw [List.find?_cons_of_neg _ (by simp [hp])] at h ⊢
      exact ih h

theorem find?_append_absent {α : Type} (l1 l2 : List α) (p : α → Bool)
    (h : l1.find? p = none) : (l1 ++ l2).find? p = l2.find? p := by
  induction l1 with
  | nil => simp
  | cons hd tl ih =>
    rw [List.cons_append]
    by_cases hp : p hd = true
    · rw [List.find?_cons_of_pos _ hp] at h
      exact absurd h (by simp)
    · simp only [Bool.not_eq_true] at hp
      rw [List.find?_cons_of_neg _ (by simp [hp])] at h ⊢
      exact ih h

theorem find?_assign_other (vars : List (String × JavascriptObject))
    (m name : String) (obj : JavascriptObject) (hne : (m == name) = false) :
    (vars.map (fun p => if p.1 == m then (p.1, obj) else p)).find?
        (fun p => p.1 == name) =
      vars.find? (fun p => p.1 == name) := by
  induction vars with
  | nil => rfl
  | cons hd tl ih =>
    rw [List.map_cons]
    by_cases hm : hd.1 = m
    · have h1 : (hd.1 == m) = true := by simpa using hm
      have h2 : (hd.1 == name) = false := by
        rw [beq_eq_false_iff_ne] at hne ⊢
        intro hc; exact hne (hm ▸ hc)
      rw [if_pos h1]
      rw [List.find?_cons_of_neg _ (by simpa using h2),
          List.find?_cons_of_neg _ (by simpa using h2)]
      exact ih
    · have h1 : ¬((hd.1 == m) = true) := by simpa using hm
      rw [if_neg h1]
      by_cases hn : hd.1 = name
      · have h2 : (hd.1 == name) = true := by simpa using hn
        rw [@List.find?_cons_of_pos _ (fun p => p.1 == name) hd _ h2,
            @List.find?_cons_of_pos _ (fun p => p.1 == name) hd _ h2]
      · have h2 : (hd.1 == name) = false := by simpa using hn
        rw [@List.find?_cons_of_neg _ (fun p => p.1 == name) hd _ (by simpa using h2),
            @List.find?_cons_of_neg _ (fun p => p.1 == name) hd _ (by simpa using h2)]
        exact ih

theorem getLastD_append_singleton {α : Type} (l : List α) (a d : α) :
    (l ++ [a]).getLastD d = a := by
  induction l generalizing d with
  | nil => rfl
  | cons hd tl ih =>
    rw [List.cons_append, List.getLastD_cons]
    exact ih hd

/-! ### The scope stack always keeps its single global scope -/

mutual

theorem exec_single_scope (e : Expression) :
    ∀ (s : ExecutionEngine) (g : ExecutionScope), s.scopes = [g] →
      ∃ g', ((s.execute_expression e).2).scopes = [g'] := by
  cases e with
  | program es =>
    intro s g h
    simp only [ExecutionEngine.execute_expression]
    exact seq_single_scope es s g h
  | letVariableDeclaration name init =>
    intro s g h
    obtain ⟨g1, h1⟩ := exec_single_scope init s g h
    simp only [ExecutionEngine.execute_expression]
    split
    next object s1 heq =>
      rw [heq] at h1
      replace h1 : s1.scopes = [g1] := h1
      split
      next sc hd =>
        refine ⟨sc, ?_⟩
        rw [finish_tick_scopes]
        exact set_current_scope_single s1 g1 sc h1
      next err hd =>
        refine ⟨g1, ?_⟩
        rw [finish_tick_scopes]
        exact h1
    next err s1 heq =>
      rw [heq] at h1
      replace h1 : s1.scopes = [g1] := h1
      refine ⟨g1, ?_⟩
      rw [finish_tick_scopes]
      exact h1
  | numberLiteral value =>
    intro s g h
    simp only [ExecutionEngine.execute_expression, Memory.allocate_number,
      Memory.allocate]
    refine ⟨g, ?_⟩
    rw [finish_tick_scopes]
    exact h
  | parenthesized inner =>
    intro s g h
    obtain ⟨g1, h1⟩ := exec_single_scope inner s g h
    simp only [ExecutionEngine.execute_expression]
    refine ⟨g1, ?_⟩
    rw [finish_tick_scopes]
    exact h1
  | identifier name =>
    intro s g h
    simp only [ExecutionEngine.execute_expression]
    split
    next value hg =>
      refine ⟨g, ?_⟩
      rw [finish_tick_scopes]
      exact h
    next hg =>
      refine ⟨g, ?_⟩
      rw [finish_tick_scopes]
      exact h
  | binaryOp left op right =>
    intro s g h
    simp only [ExecutionEngine.execute_expression]
    split
    next hop =>
      split
      next name heq =>
        split
        next var hg =>
          obtain ⟨g1, h1⟩ := exec_single_scope right s g h
          split
          next value s1 heq2 =>
            rw [heq2] at h1
            replace h1 : s1.scopes = [g1] := h1
            exact ⟨_, set_current_scope_single s1 g1 _ h1⟩
          next err s1 heq2 =>
            rw [heq2] at h1
            exact ⟨g1, h1⟩
        next hg =>
          exact ⟨g, h⟩
      next =>
        exact ⟨g, h⟩
    next hop =>
      obtain ⟨g1, h1⟩ := exec_single_scope (reorder_expression left) s g h
      split
      next err s1 heq =>
        rw [heq] at h1
        exact ⟨g1, h1⟩
      next left_result s1 heq =>
        rw [heq] at h1
        replace h1 : s1.scopes = [g1] := h1
        obtain ⟨g2, h2⟩ := exec_single_scope (reorder_expression right) s1 g1 h1
        split
        next err s2 heq2 =>
          rw [heq2] at h2
          exact ⟨g2, h2⟩
        next right_result s2 heq2 =>
          rw [heq2] at h2
          replace h2 : s2.scopes = [g2] := h2
          split <;> exact ⟨g2, (finish_tick_scopes _ _).trans h2⟩
  | stringLiteral value =>
    intro s g h
    simp only [ExecutionEngine.execute_expression, Memory.allocate_string,
      Memory.allocate]
    refine ⟨g, ?_⟩
    rw [finish_tick_scopes]
    exact h
termination_by sizeOf e
decreasing_by all_goals first
  | omega
  | (simp [reorder_expression]; omega)
  | simp [reorder_expression]

theorem seq_single_scope (es : List Expression) :
    ∀ (s : ExecutionEngine) (g : ExecutionScope), s.scopes = [g] →
      ∃ g', ((s.execute_sequence es).2).scopes = [g'] := by
  cases es with
  | nil => intro s g h; exact ⟨g, h⟩
  | cons e rest =>
    cases rest with
    | nil =>
      intro s g h
      simp only [ExecutionEngine.execute_sequence]
      exact exec_single_scope e s g h
    | cons e2 rest2 =>
      intro s g h
      obtain ⟨g1, h1⟩ := exec_single_scope e s g h
      simp only [ExecutionEngine.execute_sequence]
      split
      next err s1 heq =>
        rw [heq] at h1
        exact ⟨g1, h1⟩
      next v s1 heq =>
        rw [heq] at h1
        replace h1 : s1.scopes = [g1] := h1
        exact seq_single_scope (e2 :: rest2) s1 g1 h1
termination_by sizeOf es
decreasing_by all_goals first
  | omega
  | (simp [reorder_expression]; omega)
  | simp [reorder_expression]

end

/-! ### Preservation of a scope binding by expressions that never assign it -/


theorem define_preserves_find? (sc : ExecutionScope) (n : String)
    (obj : JavascriptObject) (sc' : ExecutionScope) (name : String)
    (pr : String × JavascriptObject)
    (hdef : sc.define n obj = .ok sc')
    (hfind : sc.vars.find? (fun p => p.1 == name) = some pr) :
    sc'.vars.find? (fun p => p.1 == name) = some pr := by
  cases sc with
  | mk vars par =>
    simp only [ExecutionScope.define] at hdef
    split at hdef
    · exact absurd hdef (by simp)
    · injection hdef with h
      rw [← h]
      simp only [ExecutionScope.vars] at hfind ⊢
      exact find?_append_left _ _ _ _ hfind

theorem assign_preserves_find? (sc : ExecutionScope) (m : String)
    (obj : JavascriptObject) (name : String)
    (hne : (m == name) = false) :
    (sc.assign m obj).vars.find? (fun p => p.1 == name) =
      sc.vars.find? (fun p => p.1 == name) := by
  cases sc with
  | mk vars par =>
    cases par with
    | none =>
      simp only [ExecutionScope.assign]
      split
      · simp only [ExecutionScope.vars]
        exact find?_assign_other vars m name obj hne
      · rfl
    | some p =>
      simp only [ExecutionScope.assign]
      split
      · simp only [ExecutionScope.vars]
        exact find?_assign_other vars m name obj hne
      · rfl

theorem get_of_own_find? (sc : ExecutionScope) (name : String)
    (pr : String × JavascriptObject)
    (h : sc.vars.find? (fun p => p.1 == name) = some pr) :
    sc.get name = some pr.2 := by
  cases sc with
  | mk vars par =>
    simp only [ExecutionScope.vars] at h
    cases par with
    | none =>
      simp only [ExecutionScope.get]
      rw [h]
      rfl
    | some p =>
      simp only [ExecutionScope.get]
      rw [h]

mutual

theorem exec_preserves_binding (e : Expression) :
    ∀ (s : ExecutionEngine) (g : ExecutionScope) (name : String)
      (pr : String × JavascriptObject),
      s.scopes = [g] →
      g.vars.find? (fun p => p.1 == name) = some pr →
      noAssignTo name e = true →
      ∃ g', ((s.execute_expression e).2).scopes = [g'] ∧
        g'.vars.find? (fun p => p.1 == name) = some pr := by
  cases e with
  | program es =>
    intro s g name pr h hf hna
    simp only [ExecutionEngine.execute_expression]
    exact seq_preserves_binding es s g name pr h hf hna
  | letVariableDeclaration n init =>
    intro s g name pr h hf hna
    replace hna : noAssignTo name init = true := hna
    obtain ⟨g1, h1, hf1⟩ := exec_preserves_binding init s g name pr h hf hna
    simp only [ExecutionEngine.execute_expression]
    split
    next object s1 heq =>
      rw [heq] at h1
      replace h1 : s1.scopes = [g1] := h1
      split
      next sc hd =>
        rw [get_current_scope_single s1 g1 h1] at hd
        refine ⟨sc, ?_, define_preserves_find? g1 n object sc name pr hd hf1⟩
        rw [finish_tick_scopes]
        exact set_current_scope_single s1 g1 sc h1
      next err hd =>
        refine ⟨g1, ?_, hf1⟩
        rw [finish_tick_scopes]
        exact h1
    next err s1 heq =>
      rw [heq] at h1
      replace h1 : s1.scopes = [g1] := h1
      refine ⟨g1, ?_, hf1⟩
      rw [finish_tick_scopes]
      exact h1
  | numberLiteral value =>
    intro s g name pr h hf hna
    simp only [ExecutionEngine.execute_expression, Memory.allocate_number,
      Memory.allocate]
    refine ⟨g, ?_, hf⟩
    rw [finish_tick_scopes]
    exact h
  | parenthesized inner =>
    intro s g name pr h hf hna
    replace hna : noAssignTo name inner = true := hna
    obtain ⟨g1, h1, hf1⟩ := exec_preserves_binding inner s g name pr h hf hna
    simp only [ExecutionEngine.execute_expression]
    refine ⟨g1, ?_, hf1⟩
    rw [finish_tick_scopes]
    exact h1
  | identifier n =>
    intro s g name pr h hf hna
    simp only [ExecutionEngine.execute_expression]
    split
    next value hg =>
      refine ⟨g, ?_, hf⟩
      rw [finish_tick_scopes]
      exact h
    next hg =>
      refine ⟨g, ?_, hf⟩
      rw [finish_tick_scopes]
      exact h
  | binaryOp left op right =>
    intro s g name pr h hf hna
    simp only [noAssignTo, Bool.and_eq_true] at hna
    obtain ⟨hcond, hnl, hnr⟩ := hna
    simp only [ExecutionEngine.execute_expression]
    split
    next hop =>
      split
      next mExpr mName =>
        rw [if_pos hop] at hcond
        replace hcond : (mName != name) = true := hcond
        have hmn : mName ≠ name := by simpa using hcond
        have hne : (mName == name) = false := beq_eq_false_iff_ne.mpr hmn
        split
        next var hg =>
          obtain ⟨g1, h1, hf1⟩ := exec_preserves_binding right s g name pr h hf hnr
          split
          next value s1 heq2 =>
            rw [heq2] at h1
            replace h1 : s1.scopes = [g1] := h1
            rw [get_current_scope_single s1 g1 h1]
            refine ⟨g1.assign (Expression.identifier mName).unwrap_name value, ?_, ?_⟩
            · exact set_current_scope_single s1 g1 _ h1
            · rw [show (Expression.identifier mName).unwrap_name = mName from rfl]
              rw [assign_preserves_find? g1 mName value name hne]
              exact hf1
          next err s1 heq2 =>
            rw [heq2] at h1
            exact ⟨g1, h1, hf1⟩
        next hg =>
          exact ⟨g, h, hf⟩
      next =>
        exact ⟨g, h, hf⟩
    next hop =>
      obtain ⟨g1, h1, hf1⟩ :=
        exec_preserves_binding (reorder_expression left) s g name pr h hf hnl
      split
      next err s1 heq =>
        rw [heq] at h1
        exact ⟨g1, h1, hf1⟩
      next left_result s1 heq =>
        rw [heq] at h1
        replace h1 : s1.scopes = [g1] := h1
        obtain ⟨g2, h2, hf2⟩ :=
          exec_preserves_binding (reorder_expression right) s1 g1 name pr h1 hf1 hnr
        split
        next err s2 heq2 =>
          rw [heq2] at h2
          exact ⟨g2, h2, hf2⟩
        next right_result s2 heq2 =>
          rw [heq2] at h2
          replace h2 : s2.scopes = [g2] := h2
          split <;> exact ⟨g2, (finish_tick_scopes _ _).trans h2, hf2⟩
  | stringLiteral value =>
    intro s g name pr h hf hna
    simp only [ExecutionEngine.execute_expression, Memory.allocate_string,
      Memory.allocate]
    refine ⟨g, ?_, hf⟩
    rw [finish_tick_scopes]
    exact h
termination_by sizeOf e
decreasing_by all_goals first
  | omega
  | (simp [reorder_expression]; omega)
  | simp [reorder_expression]

theorem seq_preserves_binding (es : List Expression) :
    ∀ (s : ExecutionEngine) (g : ExecutionScope) (name : String)
      (pr : String × JavascriptObject),
      s.scopes = [g] →
      g.vars.find? (fun p => p.1 == name) = some pr →
      noAssignToList name es = true →
      ∃ g', ((s.execute_sequence es).2).scopes = [g'] ∧
        g'.vars.find? (fun p => p.1 == name) = some pr := by
  cases es with
  | nil => intro s g name pr h hf hna; exact ⟨g, h, hf⟩
  | cons e rest =>
    cases rest with
    | nil =>
      intro s g name pr h hf hna
      simp only [noAssignToList, Bool.and_eq_true] at hna
      simp only [ExecutionEngine.execute_sequence]
      exact exec_preserves_binding e s g name pr h hf hna.1
    | cons e2 rest2 =>
      intro s g name pr h hf hna
      simp only [noAssignToList, Bool.and_eq_true] at hna
      obtain ⟨g1, h1, hf1⟩ := exec_preserves_binding e s g name pr h hf hna.1
      simp only [ExecutionEngine.execute_sequence]
      split
      next err s1 heq =>
        rw [heq] at h1
        exact ⟨g1, h1, hf1⟩
      next v s1 heq =>
        rw [heq] at h1
        replace h1 : s1.scopes = [g1] := h1
        refine seq_preserves_binding (e2 :: rest2) s1 g1 name pr h1 hf1 ?_
        simp only [noAssignToList, Bool.and_eq_true]
        exact hna.2
termination_by sizeOf es
decreasing_by all_goals first
  | omega
  | (simp [reorder_expression]; omega)
  | simp [reorder_expression]

end

/-! ### Every recorded sweep keeps the entries of the ids it was keyed by -/


theorem gc_step_record_good (stack : List ExecutionScope) (m : Memory)
    (sc : ExecutionScope) :
    GcRecord.good ⟨stack, sc, m, m.deallocate_except_ids sc.get_variable_ids⟩ := by
  intro pr hpr hbefore
  apply hasId_deallocate_of _ _ _ hbefore
  cases sc with
  | mk vars par =>
    simp only [ExecutionScope.get_variable_ids]
    simp only [ExecutionScope.vars] at hpr
    exact List.mem_map.mpr ⟨pr, hpr, rfl⟩

theorem foldl_gc_step_good (scs : List ExecutionScope)
    (stack : List ExecutionScope) :
    ∀ (m : Memory) (tr : List GcRecord),
      (∀ rec ∈ tr, rec.good) →
      ∀ rec ∈ (scs.foldl (gc_step stack) (m, tr)).2, rec.good := by
  induction scs with
  | nil => intro m tr h rec hrec; exact h rec hrec
  | cons sc rest ih =>
    intro m tr h rec hrec
    rw [List.foldl_cons] at hrec
    refine ih _ _ ?_ rec hrec
    intro rec2 hrec2
    replace hrec2 : rec2 ∈
        tr ++ [⟨stack, sc, m, m.deallocate_except_ids sc.get_variable_ids⟩] := hrec2
    rcases List.mem_append.mp hrec2 with hl | hr
    · exact h rec2 hl
    · rw [List.mem_singleton] at hr
      exact hr ▸ gc_step_record_good stack m sc

theorem collect_garbage_trace_good (s : ExecutionEngine)
    (h : ∀ rec ∈ s.gc_trace, rec.good) :
    ∀ rec ∈ s.collect_garbage.gc_trace, rec.good := by
  intro rec hrec
  replace hrec : rec ∈
      (s.scopes.foldl (gc_step s.scopes) (s.memory, s.gc_trace)).2 := hrec
  exact foldl_gc_step_good s.scopes s.scopes s.memory s.gc_trace h rec hrec

theorem finish_tick_trace_good (s : ExecutionEngine)
    (r : Except EngineError JavascriptObject)
    (h : ∀ rec ∈ s.gc_trace, rec.good) :
    ∀ rec ∈ (s.finish_tick r).2.gc_trace, rec.good := by
  simp only [ExecutionEngine.finish_tick]
  split
  · exact collect_garbage_trace_good _ h
  · exact h

mutual

theorem exec_trace_good (e : Expression) :
    ∀ (s : ExecutionEngine), (∀ rec ∈ s.gc_trace, rec.good) →
      ∀ rec ∈ ((s.execute_expression e).2).gc_trace, rec.good := by
  cases e with
  | program es =>
    intro s h
    simp only [ExecutionEngine.execute_expression]
    exact seq_trace_good es s h
  | letVariableDeclaration n init =>
    intro s h
    have h1 := exec_trace_good init s h
    simp only [ExecutionEngine.execute_expression]
    split
    next object s1 heq =>
      rw [heq] at h1
      replace h1 : ∀ rec ∈ s1.gc_trace, rec.good := h1
      split
      next sc hd => exact finish_tick_trace_good _ _ h1
      next err hd => exact finish_tick_trace_good _ _ h1
    next err s1 heq =>
      rw [heq] at h1
      replace h1 : ∀ rec ∈ s1.gc_trace, rec.good := h1
      exact finish_tick_trace_good _ _ h1
  | numberLiteral value =>
    intro s h
    simp only [ExecutionEngine.execute_expression, Memory.allocate_number,
      Memory.allocate]
    exact finish_tick_trace_good _ _ h
  | parenthesized inner =>
    intro s h
    have h1 := exec_trace_good inner s h
    simp only [ExecutionEngine.execute_expression]
    exact finish_tick_trace_good _ _ h1
  | identifier n =>
    intro s h
    simp only [ExecutionEngine.execute_expression]
    split
    next value hg => exact finish_tick_trace_good _ _ h
    next hg => exact finish_tick_trace_good _ _ h
  | binaryOp left op right =>
    intro s h
    simp only [ExecutionEngine.execute_expression]
    split
    next hop =>
      split
      next mExpr mName =>
        split
        next var hg =>
          have h1 := exec_trace_good right s h
          split
          next value s1 heq2 =>
            rw [heq2] at h1
            exact h1
          next err s1 heq2 =>
            rw [heq2] at h1
            exact h1
        next hg => exact h
      next => exact h
    next hop =>
      have h1 := exec_trace_good (reorder_expression left) s h
      split
      next err s1 heq =>
        rw [heq] at h1
        exact h1
      next left_result s1 heq =>
        rw [heq] at h1
        replace h1 : ∀ rec ∈ s1.gc_trace, rec.good := h1
        have h2 := exec_trace_good (reorder_expression right) s1 h1
        split
        next err s2 heq2 =>
          rw [heq2] at h2
          exact h2
        next right_result s2 heq2 =>
          rw [heq2] at h2
          replace h2 : ∀ rec ∈ s2.gc_trace, rec.good := h2
          split <;> exact finish_tick_trace_good _ _ h2
  | stringLiteral value =>
    intro s h
    simp only [ExecutionEngine.execute_expression, Memory.allocate_string,
      Memory.allocate]
    exact finish_tick_trace_good _ _ h
termination_by sizeOf e
decreasing_by all_goals first
  | omega
  | (simp [reorder_expression]; omega)
  | simp [reorder_expression]

theorem seq_trace_good (es : List Expression) :
    ∀ (s : ExecutionEngine), (∀ rec ∈ s.gc_trace, rec.good) →
      ∀ rec ∈ ((s.execute_sequence es).2).gc_trace, rec.good := by
  cases es with
  | nil => intro s h; exact h
  | cons e rest =>
    cases rest with
    | nil =>
      intro s h
      simp only [ExecutionEngine.execute_sequence]
      exact exec_trace_good e s h
    | cons e2 rest2 =>
      intro s h
      have h1 := exec_trace_good e s h
      simp only [ExecutionEngine.execute_sequence]
      split
      next err s1 heq =>
        rw [heq] at h1
        exact h1
      next v s1 heq =>
        rw [heq] at h1
        replace h1 : ∀ rec ∈ s1.gc_trace, rec.good := h1
        exact seq_trace_good (e2 :: rest2) s1 h1
termination_by sizeOf es
decreasing_by all_goals first
  | omega
  | (simp [reorder_expression]; omega)
  | simp [reorder_expression]

end

/-! ### Garbage-collection pacing lemmas -/

theorem collect_garbage_single (s : ExecutionEngine) (g : ExecutionScope)
    (h : s.scopes = [g]) :
    s.collect_garbage =
      { s with
        memory := s.memory.deallocate_except_ids g.get_variable_ids,
        gc_trace := s.gc_trace ++
          [⟨[g], g, s.memory, s.memory.deallocate_except_ids g.get_variable_ids⟩] } := by
  simp only [ExecutionEngine.collect_garbage, h, gc_step, List.foldl_cons,
    List.foldl_nil]

theorem finish_tick_gcCount (s : ExecutionEngine)
    (r : Except EngineError JavascriptObject) (g : ExecutionScope)
    (h : s.scopes = [g]) :
    (s.finish_tick r).2.gc_trace.length =
      s.gc_trace.length + (if (s.execution_tick + 1) % 10 = 0 then 1 else 0) := by
  simp only [ExecutionEngine.finish_tick]
  split
  next hcond =>
    have hc : (s.execution_tick + 1) % 10 = 0 := by simpa using hcond
    rw [if_pos hc]
    rw [collect_garbage_single { s with execution_tick := s.execution_tick + 1 } g h]
    simp
  next hcond =>
    have hc : ¬((s.execution_tick + 1) % 10 = 0) := by simpa using hcond
    rw [if_neg hc]
    simp

/-! ### Claim theorems -/

/-- C3: after any prior execution (any number of evaluation steps and
garbage-collection sweeps), a sweep changes neither the scope stack nor
the tick counter, and every object still bound under a name in the
current scope chain of the resulting state remains retrievable by
evaluating that name as an Identifier, yielding the same handle with its
unchanged value. -/
theorem C3_bindings_survive_gc :
    (∀ s : ExecutionEngine,
      s.collect_garbage.scopes = s.scopes ∧
      s.collect_garbage.execution_tick = s.execution_tick) ∧
    (∀ (e : Expression) (s : ExecutionEngine) (name : String)
       (v : JavascriptObject),
      (s.execute_expression e).2.get_current_scope.get name = some v →
      (((s.execute_expression e).2.execute_expression (.identifier name)).1 =
        .ok v)) := by
  refine ⟨fun s => ⟨collect_garbage_scopes s, collect_garbage_tick s⟩, ?_⟩
  intro e s name v hget
  simp only [ExecutionEngine.execute_expression]
  rw [hget]
  rfl

/-- Witness for C3: after running the in-flight sweep program (more than
ten evaluated sub-expressions and two sweeps), the binding of the name x
still resolves to the handle with id 12 and value 42, and evaluating the
Identifier returns exactly that handle. -/
theorem C3_witness :
    ((execute_source inflight_sweep_program).2.get_current_scope.get "x" =
      some ⟨12, .number (.fin 42)⟩) ∧
    (((execute_source inflight_sweep_program).2.execute_expression
        (.identifier "x")).1 = .ok ⟨12, .number (.fin 42)⟩) :=
  ⟨by decide,
   C3_bindings_survive_gc.2 inflight_sweep_program ExecutionEngine.new "x"
     ⟨12, .number (.fin 42)⟩ (by decide)⟩

/-- C5: a Program node evaluates its children in order; an empty Program
yields the undefined singleton with no state change, a failing child
aborts evaluation with that error and no later child is evaluated, and
the value of a Program is the value of its last child. -/
theorem C5_program_sequencing :
    ∀ (s : ExecutionEngine),
      (s.execute_expression (.program []) = (.ok s.get_undefined, s)) ∧
      (∀ (e : Expression) (rest : List Expression) (err : EngineError)
         (s1 : ExecutionEngine),
        s.execute_expression e = (.error err, s1) →
        s.execute_expression (.program (e :: rest)) = (.error err, s1)) ∧
      (∀ (e : Expression) (v : JavascriptObject) (s1 : ExecutionEngine),
        s.execute_expression e = (.ok v, s1) →
        s.execute_expression (.program [e]) = (.ok v, s1)) ∧
      (∀ (e e2 : Expression) (rest : List Expression) (v : JavascriptObject)
         (s1 : ExecutionEngine),
        s.execute_expression e = (.ok v, s1) →
        s.execute_expression (.program (e :: e2 :: rest)) =
          s1.execute_expression (.program (e2 :: rest))) := by
  intro s
  refine ⟨rfl, ?_, ?_, ?_⟩
  · intro e rest err s1 h1
    cases rest with
    | nil =>
      simp only [ExecutionEngine.execute_expression,
        ExecutionEngine.execute_sequence]
      exact h1
    | cons e2 rest2 =>
      simp only [ExecutionEngine.execute_expression,
        ExecutionEngine.execute_sequence]
      rw [h1]
  · intro e v s1 h1
    simp only [ExecutionEngine.execute_expression,
      ExecutionEngine.execute_sequence]
    exact h1
  · intro e e2 rest v s1 h1
    simp only [ExecutionEngine.execute_expression,
      ExecutionEngine.execute_sequence]
    rw [h1]

/-- Witness for C5: in a fresh engine a two-child Program delegates to
the remaining children after its first child succeeds. -/
theorem C5_witness :
    (ExecutionEngine.new.execute_expression (.numberLiteral (.fin 1)) =
      (.ok ⟨3, .number (.fin 1)⟩,
        (ExecutionEngine.new.execute_expression (.numberLiteral (.fin 1))).2)) ∧
    (ExecutionEngine.new.execute_expression
        (.program [.numberLiteral (.fin 1), .numberLiteral (.fin 2)]) =
      ((ExecutionEngine.new.execute_expression
          (.numberLiteral (.fin 1))).2.execute_expression
        (.program [.numberLiteral (.fin 2)]))) :=
  ⟨rfl,
   (C5_program_sequencing ExecutionEngine.new).2.2.2 (.numberLiteral (.fin 1))
     (.numberLiteral (.fin 2)) [] ⟨3, .number (.fin 1)⟩ _ rfl⟩

/-- C4: for an assignment BinaryOp, a non-Identifier left child fails
with the invalid-assignment-target condition and an unresolvable
identifier fails with identifier-not-found, both leaving the state
untouched; otherwise the right child is evaluated, its error propagates
unchanged, and on success the binding is updated in place via assign and
the assignment's result is the right-hand value.  The equations never
evaluate the left child — only its existence is checked. -/
theorem C4_assignment_semantics :
    ∀ (s : ExecutionEngine) (left right : Expression) (op : Operator),
      op.is_equals = true →
      ((∀ name, left ≠ .identifier name) →
        s.execute_expression (.binaryOp left op right) =
          (.error (invalid_target_error left), s)) ∧
      (∀ name, left = .identifier name →
        s.get_current_scope.get name = none →
        s.execute_expression (.binaryOp left op right) =
          (.error (no_variable_error name), s)) ∧
      (∀ name var, left = .identifier name →
        s.get_current_scope.get name = some var →
        (∀ err s1, s.execute_expression right = (.error err, s1) →
          s.execute_expression (.binaryOp left op right) = (.error err, s1)) ∧
        (∀ v s1, s.execute_expression right = (.ok v, s1) →
          s.execute_expression (.binaryOp left op right) =
            (.ok v, s1.set_current_scope (s1.get_current_scope.assign name v)))) := by
  intro s left right op hop
  refine ⟨?_, ?_, ?_⟩
  · intro hni
    simp only [ExecutionEngine.execute_expression]
    rw [if_pos hop]
  · intro name hleft hget
    subst hleft
    simp only [ExecutionEngine.execute_expression]
    rw [if_pos hop]
    rw [hget]
  · intro name var hleft hget
    subst hleft
    refine ⟨?_, ?_⟩
    · intro err s1 h1
      simp only [ExecutionEngine.execute_expression]
      rw [if_pos hop]
      rw [hget]
      simp only []
      rw [h1]
    · intro v s1 h1
      simp only [ExecutionEngine.execute_expression]
      rw [if_pos hop]
      rw [hget]
      simp only []
      rw [h1]
      rfl

/-- Witness for C4: in a state with a bound to 1, evaluating a = 2
updates the binding in place and the assignment's result is the
right-hand value. -/
theorem C4_witness :
    ((Operator.mk .equals).is_equals = true) ∧
    (((ExecutionEngine.new.execute_expression
        (.letVariableDeclaration "a" (.numberLiteral (.fin 1)))).2.get_current_scope.get
          "a" = some ⟨3, .number (.fin 1)⟩)) ∧
    ((ExecutionEngine.new.execute_expression
        (.letVariableDeclaration "a" (.numberLiteral (.fin 1)))).2.execute_expression
      (.binaryOp (.identifier "a") ⟨.equals⟩ (.numberLiteral (.fin 2))) =
      (.ok ⟨4, .number (.fin 2)⟩,
        (((ExecutionEngine.new.execute_expression
            (.letVariableDeclaration "a" (.numberLiteral (.fin 1)))).2.execute_expression
              (.numberLiteral (.fin 2))).2.set_current_scope
          (((ExecutionEngine.new.execute_expression
              (.letVariableDeclaration "a" (.numberLiteral (.fin 1)))).2.execute_expression
                (.numberLiteral (.fin 2))).2.get_current_scope.assign "a"
            ⟨4, .number (.fin 2)⟩)))) :=
  ⟨rfl, by decide,
   ((C4_assignment_semantics _ (.identifier "a") (.numberLiteral (.fin 2))
        ⟨.equals⟩ rfl).2.2 "a" ⟨3, .number (.fin 1)⟩ rfl (by decide)).2
     ⟨4, .number (.fin 2)⟩ _ rfl⟩

/-- C10: a failing node has performed none of its own binding effects: a
let whose initializer fails never defines (the scopes are exactly those
left by the initializer), and an assignment whose target check fails or
whose right-hand side fails never assigns (the state, respectively the
scopes, are exactly as before the binding step). -/
theorem C10_no_binding_effects_on_error :
    ∀ (s : ExecutionEngine),
      (∀ (name : String) (init : Expression) (err : EngineError)
         (s1 : ExecutionEngine),
        s.execute_expression init = (.error err, s1) →
        (s.execute_expression (.letVariableDeclaration name init)).1 = .error err ∧
        (s.execute_expression (.letVariableDeclaration name init)).2.scopes =
          s1.scopes) ∧
      (∀ (left : Expression) (op : Operator) (right : Expression),
        op.is_equals = true → (∀ n, left ≠ .identifier n) →
        (s.execute_expression (.binaryOp left op right)).2 = s) ∧
      (∀ (name : String) (op : Operator) (right : Expression),
        op.is_equals = true → s.get_current_scope.get name = none →
        (s.execute_expression
          (.binaryOp (.identifier name) op right)).2 = s) ∧
      (∀ (name : String) (op : Operator) (right : Expression)
         (var : JavascriptObject) (err : EngineError) (s1 : ExecutionEngine),
        op.is_equals = true → s.get_current_scope.get name = some var →
        s.execute_expression right = (.error err, s1) →
        s.execute_expression (.binaryOp (.identifier name) op right) =
          (.error err, s1)) := by
  intro s
  refine ⟨?_, ?_, ?_, ?_⟩
  · intro name init err s1 h1
    constructor
    · simp only [ExecutionEngine.execute_expression]
      rw [h1]
      rfl
    · simp only [ExecutionEngine.execute_expression]
      rw [h1]
      simp only []
      rw [finish_tick_scopes]
  · intro left op right hop hni
    simp only [ExecutionEngine.execute_expression]
    rw [if_pos hop]
  · intro name op right hop hget
    simp only [ExecutionEngine.execute_expression]
    rw [if_pos hop]
    rw [hget]
  · intro name op right var err s1 hop hget h1
    simp only [ExecutionEngine.execute_expression]
    rw [if_pos hop]
    rw [hget]
    simp only []
    rw [h1]

/-- Witness for C10: a let whose initializer reads an unbound name
performs no define — its result is the initializer's error and the
scopes are exactly those the failed initializer left behind. -/
theorem C10_witness :
    (ExecutionEngine.new.execute_expression (.identifier "nope") =
      (.error (no_variable_error "nope"),
        (ExecutionEngine.new.execute_expression (.identifier "nope")).2)) ∧
    ((ExecutionEngine.new.execute_expression
        (.letVariableDeclaration "x" (.identifier "nope"))).1 =
      .error (no_variable_error "nope")) ∧
    ((ExecutionEngine.new.execute_expression
        (.letVariableDeclaration "x" (.identifier "nope"))).2.scopes =
      (ExecutionEngine.new.execute_expression (.identifier "nope")).2.scopes) :=
  ⟨rfl,
   ((C10_no_binding_effects_on_error ExecutionEngine.new).1 "x"
      (.identifier "nope") (no_variable_error "nope") _ rfl).1,
   ((C10_no_binding_effects_on_error ExecutionEngine.new).1 "x"
      (.identifier "nope") (no_variable_error "nope") _ rfl).2⟩

/-- C8: a let declaration evaluates its initializer first; an
initializer error propagates as the declaration's result, a name already
present in the current scope's own bindings makes the define step fail
with the duplicate-binding condition, and otherwise the declaration's
value is the initializer's value and the name is bound to it in the
current scope. -/
theorem C8_let_semantics :
    ∀ (s : ExecutionEngine) (name : String) (init : Expression),
      (∀ err s1, s.execute_expression init = (.error err, s1) →
        (s.execute_expression (.letVariableDeclaration name init)).1 =
          .error err) ∧
      (∀ v s1, s.execute_expression init = (.ok v, s1) →
        (s1.get_current_scope.vars.any (fun p => p.1 == name) = true →
          (s.execute_expression (.letVariableDeclaration name init)).1 =
            .error (duplicate_binding_error name)) ∧
        (s1.get_current_scope.vars.any (fun p => p.1 == name) = false →
          (s.execute_expression (.letVariableDeclaration name init)).1 = .ok v ∧
          (s.execute_expression
            (.letVariableDeclaration name init)).2.get_current_scope.get name =
              some v)) := by
  intro s name init
  constructor
  · intro err s1 h1
    simp only [ExecutionEngine.execute_expression]
    rw [h1]
    rfl
  · intro v s1 h1
    constructor
    · intro hdup
      simp only [ExecutionEngine.execute_expression]
      rw [h1]
      simp only []
      cases hsc : s1.get_current_scope with
      | mk vars par =>
        replace hdup : vars.any (fun p => p.1 == name) = true := by
          rw [hsc] at hdup
          exact hdup
        simp only [ExecutionScope.define]
        rw [if_pos hdup]
        rfl
    · intro hnodup
      simp only [ExecutionEngine.execute_expression]
      rw [h1]
      simp only []
      cases hsc : s1.get_current_scope with
      | mk vars par =>
        replace hnodup : vars.any (fun p => p.1 == name) = false := by
          rw [hsc] at hnodup
          exact hnodup
        simp only [ExecutionScope.define]
        rw [if_neg (by simp [hnodup])]
        simp only []
        have hfind : (vars ++ [(name, v)]).find? (fun p => p.1 == name) =
            some (name, v) := by
          rw [find?_append_absent]
          · rw [@List.find?_cons_of_pos _ (fun p => p.1 == name) (name, v) []
              (by simp)]
          · rw [List.find?_eq_none]
            intro x hx hpx
            have hany : vars.any (fun p => p.1 == name) = true :=
              List.any_eq_true.mpr ⟨x, hx, hpx⟩
            rw [hnodup] at hany
            exact Bool.noConfusion hany
        constructor
        · rfl
        · have hs : ((s1.set_current_scope
              (.mk (vars ++ [(name, v)]) par)).finish_tick (.ok v)).2.scopes =
              s1.scopes.dropLast ++ [.mk (vars ++ [(name, v)]) par] := by
            rw [finish_tick_scopes]
            rfl
          have hcur : ((s1.set_current_scope
              (.mk (vars ++ [(name, v)]) par)).finish_tick
                (.ok v)).2.get_current_scope =
              .mk (vars ++ [(name, v)]) par := by
            simp only [ExecutionEngine.get_current_scope]
            rw [hs]
            exact getLastD_append_singleton _ _ _
          rw [hcur]
          exact get_of_own_find? _ name (name, v) hfind

/-- Witness for C8: in a fresh engine, let b = 5 succeeds, the
declaration's value is the allocated number, and b resolves to it. -/
theorem C8_witness :
    (ExecutionEngine.new.execute_expression (.numberLiteral (.fin 5)) =
      (.ok ⟨3, .number (.fin 5)⟩,
        (ExecutionEngine.new.execute_expression (.numberLiteral (.fin 5))).2)) ∧
    ((ExecutionEngine.new.execute_expression
        (.numberLiteral (.fin 5))).2.get_current_scope.vars.any
          (fun p => p.1 == "b") = false) ∧
    ((ExecutionEngine.new.execute_expression
        (.letVariableDeclaration "b" (.numberLiteral (.fin 5)))).1 =
      .ok ⟨3, .number (.fin 5)⟩) ∧
    ((ExecutionEngine.new.execute_expression
        (.letVariableDeclaration "b" (.numberLiteral (.fin 5)))).2.get_current_scope.get
          "b" = some ⟨3, .number (.fin 5)⟩) :=
  ⟨rfl, by decide,
   (((C8_let_semantics ExecutionEngine.new "b" (.numberLiteral (.fin 5))).2
      ⟨3, .number (.fin 5)⟩ _ rfl).2 (by decide)).1,
   (((C8_let_semantics ExecutionEngine.new "b" (.numberLiteral (.fin 5))).2
      ⟨3, .number (.fin 5)⟩ _ rfl).2 (by decide)).2⟩

/-- C7: once both operands of an arithmetic BinaryOp have evaluated
successfully the operation never fails: the result is the freshly
allocated Number whose value applies the operator to the numeric
coercion of each operand, and division of any value by a finite zero
yields not-a-number or an infinity, never an error. -/
theorem C7_arithmetic_total :
    ∀ (s s1 s2 : ExecutionEngine) (left right : Expression) (op : Operator)
      (v1 v2 : JavascriptObject),
      (op.kind = .plus ∨ op.kind = .minus ∨ op.kind = .multiply ∨
        op.kind = .divide) →
      s.execute_expression (reorder_expression left) = (.ok v1, s1) →
      s1.execute_expression (reorder_expression right) = (.ok v2, s2) →
      ((s.execute_expression (.binaryOp left op right)).1 =
        .ok ⟨s2.memory.next_id,
          .number (arith_result op.kind v1.cast_to_number v2.cast_to_number)⟩) ∧
      (∀ x : JNum, x.div (.fin 0) = .nan ∨ x.div (.fin 0) = .inf false ∨
        x.div (.fin 0) = .inf true) := by
  intro s s1 s2 left right op v1 v2 hk h1 h2
  constructor
  · have hop : ¬(op.is_equals = true) := by
      rcases hk with hk | hk | hk | hk <;> simp [Operator.is_equals, hk]
    simp only [ExecutionEngine.execute_expression]
    rw [if_neg hop]
    rw [h1]
    simp only []
    rw [h2]
    simp only []
    rcases hk with hk | hk | hk | hk <;>
      (rw [hk]
       simp only [Memory.allocate_number, Memory.allocate, arith_result]
       rfl)
  · intro x
    cases x with
    | nan => exact Or.inl rfl
    | inf b =>
      cases b with
      | false => exact Or.inr (Or.inl (by decide))
      | true => exact Or.inr (Or.inr (by decide))
    | fin q =>
      by_cases hq : q = 0
      · subst hq
        exact Or.inl (by decide)
      · by_cases hlt : q < 0
        · refine Or.inr (Or.inr ?_)
          simp [JNum.div, hq, hlt]
        · refine Or.inr (Or.inl ?_)
          simp [JNum.div, hq, hlt]

/-- Witness for C7: in a fresh engine, one divided by zero evaluates to
a freshly allocated Number holding positive infinity rather than an
error. -/
theorem C7_witness :
    ((Operator.mk .divide).kind = .divide) ∧
    ((ExecutionEngine.new.execute_expression
        (.binaryOp (.numberLiteral (.fin 1)) ⟨.divide⟩
          (.numberLiteral (.fin 0)))).1 =
      .ok ⟨5, .number (.inf false)⟩) :=
  ⟨rfl, by
    have h := (C7_arithmetic_total ExecutionEngine.new _ _
      (.numberLiteral (.fin 1)) (.numberLiteral (.fin 0)) ⟨.divide⟩
      ⟨3, .number (.fin 1)⟩ ⟨4, .number (.fin 0)⟩
      (Or.inr (Or.inr (Or.inr rfl))) rfl rfl).1
    exact h⟩

/-- C9: the engine is constructed with exactly one scope; no evaluation
path pushes or pops a scope, so the scope stack stays a single scope
throughout; the current and global scope coincide; and on a single-scope
stack each garbage-collection cycle performs exactly one sweep, keyed by
the global scope's bound ids. -/
theorem C9_single_global_scope :
    ExecutionEngine.new.scopes.length = 1 ∧
    (∀ (e : Expression) (s : ExecutionEngine) (g : ExecutionScope),
      s.scopes = [g] → ∃ g', (s.execute_expression e).2.scopes = [g']) ∧
    (∀ (s : ExecutionEngine) (g : ExecutionScope), s.scopes = [g] →
      s.get_current_scope = s.get_global_scope) ∧
    (∀ (s : ExecutionEngine) (g : ExecutionScope), s.scopes = [g] →
      s.collect_garbage =
        { s with
          memory := s.memory.deallocate_except_ids g.get_variable_ids,
          gc_trace := s.gc_trace ++ [⟨[g], g, s.memory,
            s.memory.deallocate_except_ids g.get_variable_ids⟩] }) := by
  refine ⟨rfl, fun e s g hs => exec_single_scope e s g hs, fun s g hs => ?_,
    fun s g hs => collect_garbage_single s g hs⟩
  rw [get_current_scope_single s g hs, get_global_scope_single s g hs]

/-- Witness for C9: the fresh engine's stack is the single global scope
holding the three singletons, and it stays a single scope across a
program with more than ten evaluated nodes and a sweep. -/
theorem C9_witness :
    (ExecutionEngine.new.scopes =
      [ExecutionScope.mk
        [("undefined", ⟨0, .undefined⟩), ("true", ⟨1, .boolean true⟩),
         ("false", ⟨2, .boolean false⟩)] none]) ∧
    (∃ g', (ExecutionEngine.new.execute_expression
        ten_literals_program).2.scopes = [g']) ∧
    (ExecutionEngine.new.get_current_scope =
      ExecutionEngine.new.get_global_scope) :=
  ⟨rfl,
   C9_single_global_scope.2.1 ten_literals_program ExecutionEngine.new _ rfl,
   C9_single_global_scope.2.2.1 ExecutionEngine.new _ rfl⟩

/-- C1 as stated is false: running the in-flight sweep program, the
sweep at tick ten removes the heap entry of the freshly allocated
initializer value while it is bound in no scope; define then binds it,
and immediately after the sweep at tick twenty the handle bound to x is
reachable by walking the scope stack's name bindings yet has no live
entry in Memory's table. -/
theorem C1_counterexample :
    ((execute_source inflight_sweep_program).2.gc_trace.any
      (fun rec => rec.scopes_at_sweep.any
        (fun sc => sc.vars.any
          (fun pr => !rec.memory_after.hasId pr.2.memory_id)))) = true ∧
    (execute_source inflight_sweep_program).2.gc_trace.length = 2 := by
  constructor <;> decide

/-- C1 amended: immediately after every sweep performed during a call to
execute_source, every handle bound in the scope that keyed the sweep and
whose id had a live entry in Memory's table immediately before the sweep
still has a live entry afterwards — a sweep never removes the entry of a
currently-bound id.  (A handle bound only after an earlier sweep already
removed its entry, while the value was in flight, stays without an
entry.) -/
theorem C1_amended_sweeps_preserve_bound_entries :
    ∀ (program : Expression) (i : Nat)
      (h : i < (execute_source program).2.gc_trace.length),
      ∀ pr ∈ ((execute_source program).2.gc_trace.get ⟨i, h⟩).swept_scope.vars,
        ((execute_source program).2.gc_trace.get ⟨i, h⟩).memory_before.hasId
          pr.2.memory_id = true →
        ((execute_source program).2.gc_trace.get ⟨i, h⟩).memory_after.hasId
          pr.2.memory_id = true := by
  intro program i h pr hpr hb
  have hnew : ∀ rec ∈ ExecutionEngine.new.gc_trace, rec.good := by
    intro rec hrec
    have hempty : ExecutionEngine.new.gc_trace = [] := rfl
    rw [hempty] at hrec
    cases hrec
  have hg := exec_trace_good program ExecutionEngine.new hnew
  exact hg _ (List.get_mem _ _ _) pr hpr hb

/-- Witness for C1 amended: in the ten-literal program's single sweep,
the binding of the undefined singleton (id zero) was live before the
sweep and is still live after it. -/
theorem C1_amended_witness :
    ∃ h : 0 < (execute_source ten_literals_program).2.gc_trace.length,
      (("undefined", (⟨0, .undefined⟩ : JavascriptObject)) ∈
        ((execute_source ten_literals_program).2.gc_trace.get
          ⟨0, h⟩).swept_scope.vars) ∧
      (((execute_source ten_literals_program).2.gc_trace.get
          ⟨0, h⟩).memory_before.hasId 0 = true) ∧
      (((execute_source ten_literals_program).2.gc_trace.get
          ⟨0, h⟩).memory_after.hasId 0 = true) :=
  ⟨by decide, by decide, by decide,
   C1_amended_sweeps_preserve_bound_entries ten_literals_program 0 (by decide)
     ("undefined", ⟨0, .undefined⟩) (by decide) (by decide)⟩

/-- C2 as stated is false: a Program node completes its evaluation
without incrementing the tick counter at all (the claim requires exactly
one increment at every node's completion, Program nodes included). -/
theorem C2_counterexample :
    (ExecutionEngine.new.execute_expression (.program [])).2.execution_tick = 0 ∧
    (ExecutionEngine.new.execute_expression
      (.program [])).2.gc_trace.length = 0 := by
  constructor <;> rfl

/-- C2 amended: the tick counter is incremented exactly once at the
completion of every NumberLiteral, StringLiteral, Identifier,
Parenthesized and LetVariableDeclaration node, and of every
non-assignment BinaryOp whose operands both evaluated successfully, and
at each such completion one garbage-collection cycle runs exactly when
the incremented counter is a multiple of ten.  Program nodes, assignment
BinaryOps and non-assignment BinaryOps with a failing operand complete
through early returns that perform no increment and no collection of
their own. -/
theorem C2_amended_tick_discipline :
    ∀ (s : ExecutionEngine) (g : ExecutionScope), s.scopes = [g] →
      (∀ v, (s.execute_expression (.numberLiteral v)).2.execution_tick =
              s.execution_tick + 1 ∧
            (s.execute_expression (.numberLiteral v)).2.gc_trace.length =
              s.gc_trace.length +
                (if (s.execution_tick + 1) % 10 = 0 then 1 else 0)) ∧
      (∀ str, (s.execute_expression (.stringLiteral str)).2.execution_tick =
              s.execution_tick + 1 ∧
            (s.execute_expression (.stringLiteral str)).2.gc_trace.length =
              s.gc_trace.length +
                (if (s.execution_tick + 1) % 10 = 0 then 1 else 0)) ∧
      (∀ n, (s.execute_expression (.identifier n)).2.execution_tick =
              s.execution_tick + 1 ∧
            (s.execute_expression (.identifier n)).2.gc_trace.length =
              s.gc_trace.length +
                (if (s.execution_tick + 1) % 10 = 0 then 1 else 0)) ∧
      (∀ inner,
        (s.execute_expression (.parenthesized inner)).2.execution_tick =
          (s.execute_expression inner).2.execution_tick + 1 ∧
        (s.execute_expression (.parenthesized inner)).2.gc_trace.length =
          (s.execute_expression inner).2.gc_trace.length +
            (if ((s.execute_expression inner).2.execution_tick + 1) % 10 = 0
             then 1 else 0)) ∧
      (∀ n init,
        (s.execute_expression
          (.letVariableDeclaration n init)).2.execution_tick =
            (s.execute_expression init).2.execution_tick + 1 ∧
        (s.execute_expression
          (.letVariableDeclaration n init)).2.gc_trace.length =
            (s.execute_expression init).2.gc_trace.length +
              (if ((s.execute_expression init).2.execution_tick + 1) % 10 = 0
               then 1 else 0)) ∧
      (∀ left right op v1 v2 s1 s2, op.is_equals = false →
        s.execute_expression (reorder_expression left) = (.ok v1, s1) →
        s1.execute_expression (reorder_expression right) = (.ok v2, s2) →
        (s.execute_expression (.binaryOp left op right)).2.execution_tick =
          s2.execution_tick + 1 ∧
        (s.execute_expression (.binaryOp left op right)).2.gc_trace.length =
          s2.gc_trace.length +
            (if (s2.execution_tick + 1) % 10 = 0 then 1 else 0)) ∧
      (∀ left right op err s1, op.is_equals = false →
        s.execute_expression (reorder_expression left) = (.error err, s1) →
        s.execute_expression (.binaryOp left op right) = (.error err, s1)) ∧
      (∀ left right op v1 s1 err s2, op.is_equals = false →
        s.execute_expression (reorder_expression left) = (.ok v1, s1) →
        s1.execute_expression (reorder_expression right) = (.error err, s2) →
        s.execute_expression (.binaryOp left op right) = (.error err, s2)) ∧
      (s.execute_expression (.program []) = (.ok s.get_undefined, s)) ∧
      (∀ e1, s.execute_expression (.program [e1]) = s.execute_expression e1) ∧
      (∀ e1 e2 rest v s1, s.execute_expression e1 = (.ok v, s1) →
        s.execute_expression (.program (e1 :: e2 :: rest)) =
          s1.execute_expression (.program (e2 :: rest))) ∧
      (∀ e1 rest err s1, s.execute_expression e1 = (.error err, s1) →
        s.execute_expression (.program (e1 :: rest)) = (.error err, s1)) ∧
      (∀ name right var v s1, s.get_current_scope.get name = some var →
        s.execute_expression right = (.ok v, s1) →
        (s.execute_expression
          (.binaryOp (.identifier name) ⟨.equals⟩ right)).2.execution_tick =
            s1.execution_tick ∧
        (s.execute_expression
          (.binaryOp (.identifier name) ⟨.equals⟩ right)).2.gc_trace.length =
            s1.gc_trace.length) ∧
      (∀ name right var err s1, s.get_current_scope.get name = some var →
        s.execute_expression right = (.error err, s1) →
        s.execute_expression (.binaryOp (.identifier name) ⟨.equals⟩ right) =
          (.error err, s1)) ∧
      (∀ name right, s.get_current_scope.get name = none →
        s.execute_expression (.binaryOp (.identifier name) ⟨.equals⟩ right) =
          (.error (no_variable_error name), s)) ∧
      (∀ left right, (∀ n, left ≠ .identifier n) →
        s.execute_expression (.binaryOp left ⟨.equals⟩ right) =
          (.error (invalid_target_error left), s)) := by
  intro s g hs
  refine ⟨?_, ?_, ?_, ?_, ?_, ?_, ?_, ?_, ?_, ?_, ?_, ?_, ?_, ?_, ?_, ?_⟩
  · intro v
    simp only [ExecutionEngine.execute_expression, Memory.allocate_number,
      Memory.allocate]
    exact ⟨finish_tick_tick _ _, finish_tick_gcCount _ _ g hs⟩
  · intro str
    simp only [ExecutionEngine.execute_expression, Memory.allocate_string,
      Memory.allocate]
    exact ⟨finish_tick_tick _ _, finish_tick_gcCount _ _ g hs⟩
  · intro n
    simp only [ExecutionEngine.execute_expression]
    split
    next value hg => exact ⟨finish_tick_tick _ _, finish_tick_gcCount _ _ g hs⟩
    next hg => exact ⟨finish_tick_tick _ _, finish_tick_gcCount _ _ g hs⟩
  · intro inner
    obtain ⟨g1, hg1⟩ := exec_single_scope inner s g hs
    simp only [ExecutionEngine.execute_expression]
    exact ⟨finish_tick_tick _ _, finish_tick_gcCount _ _ g1 hg1⟩
  · intro n init
    obtain ⟨g1, hg1⟩ := exec_single_scope init s g hs
    simp only [ExecutionEngine.execute_expression]
    split
    next object s1 heq =>
      rw [heq] at hg1
      replace hg1 : s1.scopes = [g1] := hg1
      rw [heq]
      split
      next sc hd =>
        exact ⟨finish_tick_tick _ _,
          finish_tick_gcCount _ _ sc (set_current_scope_single s1 g1 sc hg1)⟩
      next errd hd =>
        exact ⟨finish_tick_tick _ _, finish_tick_gcCount _ _ g1 hg1⟩
    next errr s1 heq =>
      rw [heq] at hg1
      replace hg1 : s1.scopes = [g1] := hg1
      rw [heq]
      exact ⟨finish_tick_tick _ _, finish_tick_gcCount _ _ g1 hg1⟩
  · intro left right op v1 v2 s1 s2 hop h1 h2
    obtain ⟨g1, hg1⟩ := exec_single_scope (reorder_expression left) s g hs
    rw [h1] at hg1
    replace hg1 : s1.scopes = [g1] := hg1
    obtain ⟨g2, hg2⟩ := exec_single_scope (reorder_expression right) s1 g1 hg1
    rw [h2] at hg2
    replace hg2 : s2.scopes = [g2] := hg2
    simp only [ExecutionEngine.execute_expression]
    rw [if_neg (by simp [hop])]
    rw [h1]
    simp only []
    rw [h2]
    simp only []
    cases hk : op.kind with
    | equals => exact absurd hop (by simp [Operator.is_equals, hk])
    | equalsEquals =>
      exact ⟨finish_tick_tick _ _, finish_tick_gcCount _ _ g2 hg2⟩
    | plus => exact ⟨finish_tick_tick _ _, finish_tick_gcCount _ _ g2 hg2⟩
    | minus => exact ⟨finish_tick_tick _ _, finish_tick_gcCount _ _ g2 hg2⟩
    | multiply => exact ⟨finish_tick_tick _ _, finish_tick_gcCount _ _ g2 hg2⟩
    | divide => exact ⟨finish_tick_tick _ _, finish_tick_gcCount _ _ g2 hg2⟩
  · intro left right op err s1 hop h1
    simp only [ExecutionEngine.execute_expression]
    rw [if_neg (by simp [hop])]
    rw [h1]
  · intro left right op v1 s1 err s2 hop h1 h2
    simp only [ExecutionEngine.execute_expression]
    rw [if_neg (by simp [hop])]
    rw [h1]
    simp only []
    rw [h2]
  · rfl
  · intro e1
    simp only [ExecutionEngine.execute_expression,
      ExecutionEngine.execute_sequence]
  · intro e1 e2 rest v s1 h1
    simp only [ExecutionEngine.execute_expression,
      ExecutionEngine.execute_sequence]
    rw [h1]
  · intro e1 rest err s1 h1
    cases rest with
    | nil =>
      simp only [ExecutionEngine.execute_expression,
        ExecutionEngine.execute_sequence]
      exact h1
    | cons e2 rest2 =>
      simp only [ExecutionEngine.execute_expression,
        ExecutionEngine.execute_sequence]
      rw [h1]
  · intro name right var v s1 hget h1
    simp only [ExecutionEngine.execute_expression]
    rw [if_pos (by decide : (Operator.mk TokenKind.equals).is_equals = true)]
    rw [hget]
    simp only []
    rw [h1]
    exact ⟨rfl, rfl⟩
  · intro name right var err s1 hget h1
    simp only [ExecutionEngine.execute_expression]
    rw [if_pos (by decide : (Operator.mk TokenKind.equals).is_equals = true)]
    rw [hget]
    simp only []
    rw [h1]
  · intro name right hget
    simp only [ExecutionEngine.execute_expression]
    rw [if_pos (by decide : (Operator.mk TokenKind.equals).is_equals = true)]
    rw [hget]
  · intro left right hni
    simp only [ExecutionEngine.execute_expression]
    rw [if_pos (by decide : (Operator.mk TokenKind.equals).is_equals = true)]

/-- Witness for C2 amended: in a fresh engine a number literal bumps the
tick from zero to one and triggers no sweep. -/
theorem C2_amended_witness :
    (ExecutionEngine.new.scopes =
      [ExecutionScope.mk
        [("undefined", ⟨0, .undefined⟩), ("true", ⟨1, .boolean true⟩),
         ("false", ⟨2, .boolean false⟩)] none]) ∧
    ((ExecutionEngine.new.execute_expression
        (.numberLiteral (.fin 7))).2.execution_tick = 1) ∧
    ((ExecutionEngine.new.execute_expression
        (.numberLiteral (.fin 7))).2.gc_trace.length = 0) :=
  ⟨rfl,
   ((C2_amended_tick_discipline ExecutionEngine.new _ rfl).1 (.fin 7)).1,
   ((C2_amended_tick_discipline ExecutionEngine.new _ rfl).1 (.fin 7)).2⟩

/-- C6 as stated is false: the program that assigns zero to the name of
the interned true singleton makes the later loose equality return the
rebound handle (id 3, the number zero) instead of the handle allocated
at construction (id 1). -/
theorem C6_counterexample :
    ((execute_source rebind_true_program).1 =
      .ok ⟨3, .number (.fin 0)⟩) ∧
    (ExecutionEngine.new.get_boolean true = ⟨1, .boolean true⟩) :=
  ⟨rfl, rfl⟩

/-- C6 amended: undefined, true and false are each allocated exactly
once at construction and bound in the global scope, and provided the
executed program never assigns to those three names, every later lookup
of them, every empty-Program result and every boolean produced by the
loose-equality operator yields the identical handle allocated at
construction, never a fresh allocation. -/
theorem C6_amended_singletons_stable :
    ∀ (e : Expression),
      noAssignTo "undefined" e = true →
      noAssignTo "true" e = true →
      noAssignTo "false" e = true →
      ∃ g', (execute_source e).2.scopes = [g'] ∧
        ((execute_source e).2.get_undefined = ⟨0, .undefined⟩) ∧
        ((execute_source e).2.get_boolean true = ⟨1, .boolean true⟩) ∧
        ((execute_source e).2.get_boolean false = ⟨2, .boolean false⟩) ∧
        (((execute_source e).2.execute_expression (.identifier "undefined")).1 =
          .ok ⟨0, .undefined⟩) ∧
        (((execute_source e).2.execute_expression (.identifier "true")).1 =
          .ok ⟨1, .boolean true⟩) ∧
        (((execute_source e).2.execute_expression (.identifier "false")).1 =
          .ok ⟨2, .boolean false⟩) ∧
        (((execute_source e).2.execute_expression (.program [])).1 =
          .ok ⟨0, .undefined⟩) ∧
        (∀ (l r : Expression) (v1 v2 : JavascriptObject)
           (s1 s2 : ExecutionEngine),
          noAssignTo "true" l = true → noAssignTo "false" l = true →
          noAssignTo "true" r = true → noAssignTo "false" r = true →
          (execute_source e).2.execute_expression (reorder_expression l) =
            (.ok v1, s1) →
          s1.execute_expression (reorder_expression r) = (.ok v2, s2) →
          (((execute_source e).2.execute_expression
            (.binaryOp l ⟨.equalsEquals⟩ r)).1 =
            .ok (if v1.is_equal_to_non_strict v2
                 then (⟨1, .boolean true⟩ : JavascriptObject)
                 else ⟨2, .boolean false⟩))) := by
  intro e hu ht hf
  obtain ⟨gu, hscu, hfu⟩ := exec_preserves_binding e ExecutionEngine.new
    (.mk [("undefined", ⟨0, .undefined⟩), ("true", ⟨1, .boolean true⟩),
      ("false", ⟨2, .boolean false⟩)] none)
    "undefined" ("undefined", ⟨0, .undefined⟩) rfl rfl hu
  obtain ⟨gt, hsct, hft⟩ := exec_preserves_binding e ExecutionEngine.new
    (.mk [("undefined", ⟨0, .undefined⟩), ("true", ⟨1, .boolean true⟩),
      ("false", ⟨2, .boolean false⟩)] none)
    "true" ("true", ⟨1, .boolean true⟩) rfl rfl ht
  obtain ⟨gf, hscf, hff⟩ := exec_preserves_binding e ExecutionEngine.new
    (.mk [("undefined", ⟨0, .undefined⟩), ("true", ⟨1, .boolean true⟩),
      ("false", ⟨2, .boolean false⟩)] none)
    "false" ("false", ⟨2, .boolean false⟩) rfl rfl hf
  have hgt : gt = gu := by
    have h12 : [gu] = [gt] := hscu.symm.trans hsct
    injection h12 with ha hb
    exact ha.symm
  have hgf : gf = gu := by
    have h12 : [gu] = [gf] := hscu.symm.trans hscf
    injection h12 with ha hb
    exact ha.symm
  rw [hgt] at hft
  rw [hgf] at hff
  have hgetu : gu.get "undefined" = some (⟨0, .undefined⟩ : JavascriptObject) :=
    get_of_own_find? gu "undefined" ("undefined", ⟨0, .undefined⟩) hfu
  have hgett : gu.get "true" = some (⟨1, .boolean true⟩ : JavascriptObject) :=
    get_of_own_find? gu "true" ("true", ⟨1, .boolean true⟩) hft
  have hgetf : gu.get "false" = some (⟨2, .boolean false⟩ : JavascriptObject) :=
    get_of_own_find? gu "false" ("false", ⟨2, .boolean false⟩) hff
  have hglob : (execute_source e).2.get_global_scope = gu :=
    get_global_scope_single _ gu hscu
  have hcur : (execute_source e).2.get_current_scope = gu :=
    get_current_scope_single _ gu hscu
  have hund : (execute_source e).2.get_undefined = ⟨0, .undefined⟩ := by
    rw [ExecutionEngine.get_undefined, hglob, hgetu]
    rfl
  refine ⟨gu, hscu, hund, ?_, ?_, ?_, ?_, ?_, ?_, ?_⟩
  · rw [ExecutionEngine.get_boolean, hglob]
    show (gu.get "true").getD ⟨0, .undefined⟩ = ⟨1, .boolean true⟩
    rw [hgett]
    rfl
  · rw [ExecutionEngine.get_boolean, hglob]
    show (gu.get "false").getD ⟨0, .undefined⟩ = ⟨2, .boolean false⟩
    rw [hgetf]
    rfl
  · simp only [ExecutionEngine.execute_expression, hcur]
    rw [hgetu]
    rfl
  · simp only [ExecutionEngine.execute_expression, hcur]
    rw [hgett]
    rfl
  · simp only [ExecutionEngine.execute_expression, hcur]
    rw [hgetf]
    rfl
  · have hempty : ((execute_source e).2.execute_expression (.program [])).1 =
        .ok (execute_source e).2.get_undefined := rfl
    rw [hempty, hund]
  · intro l r v1 v2 s1 s2 htl hfl htr hfr h1 h2
    obtain ⟨ga, hsa, hfta⟩ := exec_preserves_binding l (execute_source e).2 gu
      "true" ("true", ⟨1, .boolean true⟩) hscu hft htl
    obtain ⟨gb, hsb, hffb⟩ := exec_preserves_binding l (execute_source e).2 gu
      "false" ("false", ⟨2, .boolean false⟩) hscu hff hfl
    rw [h1] at hsa hsb
    replace hsa : s1.scopes = [ga] := hsa
    replace hsb : s1.scopes = [gb] := hsb
    have hba : gb = ga := by
      have h12 : [ga] = [gb] := hsa.symm.trans hsb
      injection h12 with ha hb
      exact ha.symm
    rw [hba] at hffb
    obtain ⟨gc, hsc2, hftc⟩ := exec_preserves_binding r s1 ga
      "true" ("true", ⟨1, .boolean true⟩) hsa hfta htr
    obtain ⟨gd, hsd, hffd⟩ := exec_preserves_binding r s1 ga
      "false" ("false", ⟨2, .boolean false⟩) hsa hffb hfr
    rw [h2] at hsc2 hsd
    replace hsc2 : s2.scopes = [gc] := hsc2
    replace hsd : s2.scopes = [gd] := hsd
    have hdc : gd = gc := by
      have h12 : [gc] = [gd] := hsc2.symm.trans hsd
      injection h12 with ha hb
      exact ha.symm
    rw [hdc] at hffd
    have hglob2 : s2.get_global_scope = gc := get_global_scope_single s2 gc hsc2
    have hgett2 : gc.get "true" = some (⟨1, .boolean true⟩ : JavascriptObject) :=
      get_of_own_find? gc "true" ("true", ⟨1, .boolean true⟩) hftc
    have hgetf2 : gc.get "false" = some (⟨2, .boolean false⟩ : JavascriptObject) :=
      get_of_own_find? gc "false" ("false", ⟨2, .boolean false⟩) hffd
    simp only [ExecutionEngine.execute_expression]
    rw [if_neg (by decide : ¬((Operator.mk TokenKind.equalsEquals).is_equals = true))]
    rw [h1]
    simp only []
    rw [h2]
    simp only []
    have hfin : (s2.finish_tick
        (.ok (s2.get_boolean (v1.is_equal_to_non_strict v2)))).1 =
        .ok (s2.get_boolean (v1.is_equal_to_non_strict v2)) := rfl
    rw [hfin]
    cases hb : v1.is_equal_to_non_strict v2 with
    | true =>
      rw [ExecutionEngine.get_boolean, hglob2]
      show Except.ok ((gc.get "true").getD ⟨0, .undefined⟩) =
        Except.ok (⟨1, .boolean true⟩ : JavascriptObject)
      rw [hgett2]
      rfl
    | false =>
      rw [ExecutionEngine.get_boolean, hglob2]
      show Except.ok ((gc.get "false").getD ⟨0, .undefined⟩) =
        Except.ok (⟨2, .boolean false⟩ : JavascriptObject)
      rw [hgetf2]
      rfl

/-- Witness for C6 amended: after a program that declares a fresh
variable (and assigns to none of the three singleton names), looking up
the true singleton still yields the handle with id 1 allocated at
construction. -/
theorem C6_amended_witness :
    (execute_source
      (.letVariableDeclaration "y" (.numberLiteral (.fin 3)))).2.get_boolean
        true = ⟨1, .boolean true⟩ := by
  obtain ⟨g', hsc, hu, ht, hrest⟩ := C6_amended_singletons_stable
    (.letVariableDeclaration "y" (.numberLiteral (.fin 3)))
    (by decide) (by decide) (by decide)
  exact ht

end JsEngine
